import Mathlib

/-!
Verification development for the `crashreporter` library.

The definitions below are a shallow embedding of the traceback
introspection engine (`crashreporter/tools.py`) and of the offline
report ring buffer and crash handler (`crashreporter/crashreporter.py`).
Python strings are modelled as lists of characters, Python runtime
values by the `Value` type, the on-disk report directory by an
association list from file ordinals to report bodies, and code that can
raise by `Option`/`Except` results.
-/

namespace CrashReporter

/-! ## Python strings -/

/-- Python strings are modelled as lists of characters, so that length,
slicing and concatenation coincide with Python's code-point operations. -/
abbrev PyStr := List Char

/-- Embed a Lean string literal as a `PyStr`. -/
def str (s : String) : PyStr := s.toList

/-- Decimal rendering of a natural number, as produced by Python's
`'%s' % n` for a non-negative `n`. -/
def natStr (n : Nat) : PyStr := str (toString n)

/-! ## Runtime values (`tools.py`)

A `Value` is a Python runtime value as seen by the introspection code.
Each constructor stores the result of `repr` on the value — `none`
meaning that `repr` raises (the case handled by the `repr` wrapper of
`tools.py` lines 19-25).  `obj` is a generic object carrying attributes,
`callable` covers `FunctionType`, `MethodType`, `ModuleType`,
`BuiltinMethodType` and `BuiltinFunctionType` (the types excluded at
`tools.py` line 68; modules and functions can still carry attributes),
`dict` is a mapping (supporting `.get`), `seq` is a `list`/`tuple`/`set`
(only its `len` matters to the embedded code), and `ndarray` is a numpy
array whose descriptive metadata `(dtype, shape, size, min, max)` is
stored pre-rendered, with `none` marking an attribute whose builtin
accessor raises when called (skipped at `tools.py` lines 131-136). -/

inductive Value where
  | obj (rep : Option PyStr) (attrs : List (String × Value))
  | callable (rep : Option PyStr) (attrs : List (String × Value))
  | dict (rep : Option PyStr) (entries : List (String × Value))
  | seq (rep : Option PyStr) (size : Nat)
  | ndarray (rep : Option PyStr) (meta : List (String × Option PyStr))

/-- The raw `repr` of a value; `none` when `repr` raises. -/
def reprRaw : Value → Option PyStr
  | .obj r _ => r
  | .callable r _ => r
  | .dict r _ => r
  | .seq r _ => r
  | .ndarray r _ => r

/-- The module-level `repr` wrapper of `tools.py` (lines 19-25): calls the
builtin `repr` and substitutes the fixed placeholder string when the
display conversion itself raises. -/
def reprSafe (v : Value) : PyStr :=
  match reprRaw v with
  | some s => s
  | none => str "String Representation not found"

/-- `isinstance(v, (FunctionType, MethodType, ModuleType,
BuiltinMethodType, BuiltinFunctionType))` — `tools.py` line 68. -/
def Value.isCallable : Value → Bool
  | .callable _ _ => true
  | _ => false

/-- First-match association-list lookup, the semantics of a Python `dict`
read (`d.get(k, default)` / `k in d`) for the finite dictionaries in the
model (frame locals, object attributes, mapping entries). -/
def lookupAssoc {α : Type} : List (String × α) → String → Option α
  | [], _ => none
  | (k, v) :: t, n => if n = k then some v else lookupAssoc t n

/-! ## Reference resolver (`tools.py` lines 28-70)

`string_variable_lookup` receives the lookup string already split into
the `refs` list built at lines 40-51: each entry is either a
`(DOT_LOOKUP, name)` attribute step or a `(DICT_LOOKUP, key)` subscript
step; the first entry is always a `DOT_LOOKUP` whose name is looked up
in the frame's locals.  The `ValueError` sentinel is modelled as
`none`. -/

inductive Step where
  | dot (name : String)
  | sub (key : String)

/-- Second component of a `refs` tuple (the source reads `refs[0][1]`
without inspecting the tag). -/
def Step.name : Step → String
  | .dot n => n
  | .sub n => n

/-- `getattr(scope, ref, ValueError)` wrapped in `try/except`
(`tools.py` lines 57-64): an attribute read that fails for any reason
yields the sentinel.  Only objects and callables carry attributes in the
model. -/
def getattrSafe : Value → String → Option Value
  | .obj _ attrs, n => lookupAssoc attrs n
  | .callable _ attrs, n => lookupAssoc attrs n
  | _, _ => none

/-- `scope.get(ref, ValueError)` wrapped in `try/except` (`tools.py`
lines 57-64): only mappings have a `get` method; on any other value the
attribute error is caught and yields the sentinel. -/
def dictGet : Value → String → Option Value
  | .dict _ entries, k => lookupAssoc entries k
  | _, _ => none

/-- One iteration body of the loop at `tools.py` lines 56-64. -/
def applyStep (scope : Value) : Step → Option Value
  | .dot n => getattrSafe scope n
  | .sub k => dictGet scope k

/-- The loop over `refs[1:]` (`tools.py` lines 56-69): apply each step;
a failed step returns the sentinel immediately, and a value that is a
function, method, module or builtin callable is discarded as the
sentinel.  Note the callable test runs only on values produced by a
step, never on the initial scope value. -/
def lookupSteps : Value → List Step → Option Value
  | scope, [] => some scope
  | scope, s :: rest =>
    match applyStep scope s with
    | none => none
    | some v => if v.isCallable then none else lookupSteps v rest

/-- `string_variable_lookup` (`tools.py` lines 28-70) over the parsed
`refs` list: the first name is read from the frame's locals
(`tb.tb_frame.f_locals.get(refs[0][1], ValueError)`), then the remaining
steps are applied by `lookupSteps`.  The source never calls this with an
empty `refs` list (it would raise `IndexError`); the `[]` case is mapped
to the sentinel. -/
def string_variable_lookup (locs : List (String × Value)) : List Step → Option Value
  | [] => none
  | first :: rest =>
    match lookupAssoc locs first.name with
    | none => none
    | some scope => lookupSteps scope rest

/-! ## Value rendering (`tools.py` lines 116-152) -/

/-- The truncation step at `tools.py` lines 149-150:
`vstr[:max_string_length] + ' ...'` when the string is longer than
`max_string_length`, the string unchanged otherwise. -/
def truncate (s : PyStr) (maxLen : Nat) : PyStr :=
  if maxLen < s.length then s.take maxLen ++ str " ..." else s

/-- The `additionals` list of `format_reference` (`tools.py` lines
123-142), already rendered through `'%s: %s' % a`: numpy arrays
contribute their available metadata (an attribute whose builtin accessor
raises is skipped), lists/tuples/sets/dicts contribute a single
`length: n` entry, every other value contributes nothing. -/
def formatAdditionals : Value → List PyStr
  | .ndarray _ meta => meta.filterMap (fun p => p.2.map (fun v => str p.1 ++ str ": " ++ v))
  | .seq _ size => [str "length: " ++ natStr size]
  | .dict _ entries => [str "length: " ++ natStr entries.length]
  | _ => []

/-- `format_reference` (`tools.py` lines 116-152): join the additionals
with the safe `repr` of the value (`', '.join(... + [repr(ref)])`), or
use the `repr` alone when there are no additionals, then truncate. -/
def format_reference (ref : Value) (maxLen : Nat) : PyStr :=
  let adds := formatAdditionals ref
  let vstr := if adds.isEmpty then reprSafe ref
              else List.intercalate (str ", ") (adds ++ [reprSafe ref])
  truncate vstr maxLen

/-- `get_local_references` (`tools.py` lines 94-113): when `'self'` is
among the frame locals its raw (safe) `repr` is placed first, bypassing
`format_reference` entirely; every other local is rendered through
`format_reference` with the given `max_string_length`.  The locals
dictionary is modelled as an association list in iteration order; the
`except TypeError: pass` guard is not modelled (the embedded
`format_reference` is total). -/
def get_local_references (locs : List (String × Value)) (maxLen : Nat) : List (String × PyStr) :=
  let selfPart : List (String × PyStr) :=
    match lookupAssoc locs "self" with
    | some v => [("self", reprSafe v)]
    | none => []
  selfPart ++ (locs.filter (fun kv => kv.1 != "self")).map
    (fun kv => (kv.1, format_reference kv.2 maxLen))

/-- `get_object_references` (`tools.py` lines 73-91) over the candidate
expressions discovered in the frame's source text.  The regex scan of
the source (lines 81-84) is abstracted as the per-frame list of
discovered `(expression string, parsed steps)` pairs, given in the
sorted order the source produces; each candidate that resolves is
rendered, each `ValueError` result is silently dropped. -/
def get_object_references (locs : List (String × Value))
    (cands : List (String × List Step)) (maxLen : Nat) : List (String × PyStr) :=
  cands.filterMap
    (fun c => (string_variable_lookup locs c.2).map
      (fun v => (c.1, format_reference v maxLen)))

/-! ## Traceback analysis (`tools.py` lines 155-183)

A `Frame` packages what one traceback level supplies: the fields
returned by `traceback.extract_tb` (file path, error line number,
function name, error line text) and what `tb_level.tb_frame` supplies
(the locals and the enclosing function source).  `source = none` models
a frame whose source file is unavailable, in which case
`inspect.getsourcelines` raises `IOError`; a `some (text, lineno)`
carries the joined function source (`''.join(func_source)`) and the
function's starting line number.  `candidates` is the regex scan of that
source text (see `get_object_references`). -/

structure Frame where
  filepath : String
  errLine : Nat
  funcName : String
  errCode : String
  source : Option (String × Nat)
  locs : List (String × Value)
  candidates : List (String × List Step)

/-- One entry of the list built by `analyze_traceback`: the dictionary
keys `"File"`, `"Error Line Number"`, `"Module"`, `"Error Line"`,
`"Module Line Number"`, `"Source Code"` are always present;
`"Local Variables"` and `"Object Variables"` exist only for frames
within the inspection level, modelled by `Option`. -/
structure FrameReport where
  file : String
  errorLineNumber : Nat
  moduleName : String
  errorLine : String
  moduleLineNumber : Nat
  sourceCode : String
  localVariables : Option (List (String × PyStr))
  objectVariables : Option (List (String × PyStr))

/-- The dictionary built for one frame (`tools.py` lines 168-179); the
enrichment fields and the source text are filled only when `enrich`
holds.  `get_local_references` and `get_object_references` are called
with the default `max_string_length = 1000`, as in the source. -/
def mkFrameReport (f : Frame) (srcText : String) (funcLineno : Nat) (enrich : Bool) :
    FrameReport :=
  { file := f.filepath
    errorLineNumber := f.errLine
    moduleName := f.funcName
    errorLine := f.errCode
    moduleLineNumber := funcLineno
    sourceCode := if enrich then srcText else ""
    localVariables := if enrich then some (get_local_references f.locs 1000) else none
    objectVariables :=
      if enrich then some (get_object_references f.locs f.candidates 1000) else none }

/-- The loop of `analyze_traceback` (`tools.py` lines 165-181), with
`n = len(extracted_tb)` and `ii` the running index.  Each iteration
first calls `inspect.getsourcelines` on the frame — unconditionally, and
outside any `try` block — so a frame with unavailable source raises
`IOError`, modelled as `Except.error ()`, aborting the whole analysis.
Otherwise the frame is enriched exactly when
`inspection_level is None or n - ii <= inspection_level`. -/
def analyzeGo (lvl : Option Nat) (n : Nat) : Nat → List Frame → Except Unit (List FrameReport)
  | _, [] => .ok []
  | ii, f :: rest =>
    match f.source with
    | none => .error ()
    | some (srcText, funcLineno) =>
      let enrich : Bool :=
        match lvl with
        | none => true
        | some k => decide (n - ii ≤ k)
      let d := mkFrameReport f srcText funcLineno enrich
      match analyzeGo lvl n (ii + 1) rest with
      | .error e => .error e
      | .ok tl => .ok (d :: tl)

/-- `analyze_traceback` (`tools.py` lines 155-183): `extract_tb` with a
`limit` keeps the first `limit` (outermost) frames; the loop then walks
the extracted frames. -/
def analyze_traceback (frames : List Frame) (inspection_level : Option Nat)
    (limit : Option Nat) : Except Unit (List FrameReport) :=
  let extracted :=
    match limit with
    | none => frames
    | some m => frames.take m
  analyzeGo inspection_level extracted.length 0 extracted

/-! ## Crash handler (`crashreporter.py` lines 174-207)

Sink configuration and outcome are modelled as an `Option Bool` per
sink: `none` means the sink is not configured (`self._smtp is None` /
`self._ftp is None`), `some b` means the sink is configured and one
submission attempt returns `b` (`_sendmail` catches its own network
errors and returns a boolean; `_ftp_submit`'s uncaught I/O after login
is abstracted into the boolean as well). -/

/-- The `great_success` accumulation of `exception_handler`
(`crashreporter.py` lines 192-201): start at `False`, OR in each
configured sink's submission result.  The saved report is removed
exactly when this is `True` (lines 201-202). -/
def handler_deletes_report (smtpResult ftpResult : Option Bool) : Bool :=
  let g0 := false
  let g1 := match smtpResult with
            | some b => g0 || b
            | none => g0
  match ftpResult with
  | some b => g1 || b
  | none => g1

/-- The eviction predicate claimed by the spec: every enabled sink's
status is `Sent` (`some true`) or `Disabled` (`none`); used to compare
the claim against `handler_deletes_report`. -/
def every_enabled_sink_sent (smtpResult ftpResult : Option Bool) : Bool :=
  smtpResult ≠ some false && ftpResult ≠ some false

/-- `submit_offline_reports` (`crashreporter.py` lines 302-320): each
configured method contributes its success boolean (exceptions are caught
and leave `False`), an unconfigured method contributes `False`. -/
def submit_offline_reports (smtpResult ftpResult : Option Bool) : Bool × Bool :=
  (smtpResult.getD false, ftpResult.getD false)

/-- The deletion decision of one pass of `_watcher_thread`
(`crashreporter.py` lines 456-464): `great_success |= any(...)`, and on
leaving the loop with `great_success` every stored report is deleted by
`delete_offline_reports`. -/
def watcher_deletes_all (smtpResult ftpResult : Option Bool) : Bool :=
  let p := submit_offline_reports smtpResult ftpResult
  p.1 || p.2

/-- `exception_handler` (`crashreporter.py` lines 174-207).  Nothing in
the handler body is wrapped in `try/except`: `analyze_traceback` (line
189) and `_save_report` (line 191) raise straight through it, modelled
by `Except.error` — in which case `sys.__excepthook__` (line 207) is
never reached.  `saveOk` abstracts whether `_save_report`'s file I/O and
body rendering succeed.  An `.ok (hook, deleted)` result means the
handler ran to completion, `hook` records that the default exception
hook was invoked with the original `(etype, evalue, tb)` (line 207), and
`deleted` records whether the saved report file was removed again
(lines 201-202). -/
def exception_handler (active : Bool) (smtpResult ftpResult : Option Bool)
    (saveOk : Bool) (etype : Option String) (frames : List Frame) :
    Except Unit (Bool × Bool) :=
  if active then
    match etype with
    | some _ =>
      match analyze_traceback frames none none with
      | .error e => .error e
      | .ok _ =>
        if saveOk then .ok (true, handler_deletes_report smtpResult ftpResult)
        else .error ()
    | none => .ok (true, false)
  else .ok (true, false)

/-! ## Offline report store (`crashreporter.py` lines 424-450)

The report directory is modelled as an association list from file
ordinal (the `NN` in `crashreportNN`) to report body, kept sorted by
ordinal.  This identification of the directory listing with numeric
ordinals is exact only in the two-digit regime: for ordinals up to 99
the `"crashreport%02d"` names are zero-padded to two digits, so
`sorted(glob.glob(...))` (lexicographic) coincides with numeric order
and `int(rpath[-2:])` recovers the ordinal exactly.  A three-digit name
such as `crashreport100` breaks all of this in the source — it sorts
lexicographically before `crashreport11` and `int(rpath[-2:])` misreads
it as ordinal 0 — so the theorems below about the store are stated only
for `offline_report_limit ≤ 99`, where no persisted ordinal ever
exceeds 99 (the transient ordinal `limit + 1` created during a
full-buffer shift is removed within the same append, before any listing
is re-read). -/

abbrev Store := List (Nat × String)

/-- Contents of the slot file with the given ordinal. -/
def storeGet : Store → Nat → Option String
  | [], _ => none
  | (m, c) :: t, n => if n = m then some c else storeGet t n

/-- Write (create or overwrite) the slot file with the given ordinal,
keeping the listing sorted — `shutil.copy2`'s destination semantics and
plain file creation. -/
def storeWrite : Store → Nat → String → Store
  | [], n, c => [(n, c)]
  | (m, d) :: t, n, c =>
    if n < m then (n, c) :: (m, d) :: t
    else if n = m then (n, c) :: t
    else (m, d) :: storeWrite t n c

/-- `os.remove` of the slot file with the given ordinal. -/
def storeRemove : Store → Nat → Store
  | [], _ => []
  | (m, d) :: t, n => if n = m then storeRemove t n else (m, d) :: storeRemove t n

/-- `_get_offline_reports` (`crashreporter.py` lines 449-450), reduced to
the ordinals of the sorted listing. -/
def storeOrdinals (s : Store) : List Nat := s.map Prod.fst

/-- One iteration of the shift loop of `_save_report` (`crashreporter.py`
lines 432-436): copy the report at ordinal `n` to ordinal `n + 1`
(`shutil.copy2` overwrites an existing destination). -/
def shiftStep (acc : Store) (n : Nat) : Store :=
  storeWrite acc (n + 1) ((storeGet acc n).getD "")

/-- `_save_report` (`crashreporter.py` lines 424-447).  If reports exist:
walk the listing in reverse (highest ordinal first) copying each report
up by one, then `os.remove` the loop's final `report` — the lowest
ordinal in the listing; if the listing was already at
`offline_report_limit`, also remove the report now sitting at
`offline_report_limit + 1`.  Finally write the new report body at
ordinal 1.

Two filename-level behaviours of the source are deliberately not
reproduced, which confines the faithful regime of this definition to
`offline_report_limit ≤ 99` (see the `Store` note): the source derives
each ordinal by `int(rpath[-2:])`, which equals the true ordinal only
for two-digit names, and the oldest-report deletion at line 440 is
`glob(... % (limit + 1))[0]`, which raises `IndexError` when no such
file exists — here a total `storeRemove`, justified because in every
state reachable from an empty directory with `limit ≤ 99` the slot
`limit + 1` does exist whenever that branch is taken. -/
def save_report (limit : Nat) (body : String) (s : Store) : Store :=
  let reports := storeOrdinals s
  let s1 :=
    match reports with
    | [] => s
    | r0 :: _ =>
      let shifted := reports.reverse.foldl shiftStep s
      let removed := storeRemove shifted r0
      if limit ≤ reports.length then storeRemove removed (limit + 1) else removed
  storeWrite s1 1 body

/-- A whole sequence of `_save_report` calls applied to an initially
empty report directory. -/
def saveAll (limit : Nat) (bodies : List String) : Store :=
  bodies.foldl (fun s b => save_report limit b s) []

/-- The store whose slot files hold the given bodies at consecutive
ordinals starting at `k` — proof-side description of reachable
directory states. -/
def slotsFrom : Nat → List String → Store
  | _, [] => []
  | k, c :: t => (k, c) :: slotsFrom (k + 1) t

/-- The store holding the given bodies at ordinals `1, 2, …` — ordinal
1 first. -/
def ofList (l : List String) : Store := slotsFrom 1 l

/-- Frame whose enclosing source `inspect.getsourcelines` cannot read
(for instance code defined interactively), so the call raises
`IOError`. -/
def unreadableFrame : Frame :=
  { filepath := "<stdin>"
    errLine := 3
    funcName := "<module>"
    errCode := "run()"
    source := none
    locs := []
    candidates := [] }

/-- Frame whose source is available. -/
def goodFrame : Frame :=
  { filepath := "a.py"
    errLine := 2
    funcName := "f"
    errCode := "x = 1 / 0"
    source := some ("def f():\n    x = 1 / 0\n", 1)
    locs := []
    candidates := [] }

/-! ## Supporting lemmas -/

theorem str_marker_length : (str " ...").length = 4 := rfl

theorem truncate_length_le (s : PyStr) (maxLen : Nat) :
    (truncate s maxLen).length ≤ maxLen + (str " ...").length := by
  unfold truncate
  split
  · rw [List.length_append, List.length_take, str_marker_length]
    omega
  · rename_i h
    rw [str_marker_length]
    omega

theorem truncate_idem (s : PyStr) (maxLen : Nat) :
    truncate (truncate s maxLen) maxLen = truncate s maxLen := by
  unfold truncate
  by_cases h : maxLen < s.length
  · have hm : maxLen ≤ s.length := le_of_lt h
    rw [if_pos h]
    have hlen : (s.take maxLen ++ str " ...").length = maxLen + 4 := by
      rw [List.length_append, List.length_take, str_marker_length]
      omega
    rw [if_pos (by rw [hlen]; omega)]
    rw [List.take_append_eq_append_take, List.take_take, Nat.min_self,
      List.length_take, Nat.min_eq_left hm, Nat.sub_self, List.take_zero,
      List.append_nil]
  · rw [if_neg h, if_neg h]

theorem format_reference_length_le (ref : Value) (maxLen : Nat) :
    (format_reference ref maxLen).length ≤ maxLen + (str " ...").length :=
  truncate_length_le _ maxLen

theorem lookupSteps_ok : ∀ (l : List Step) (scope v : Value),
    lookupSteps scope l = some v → (l = [] ∧ v = scope) ∨ v.isCallable = false := by
  intro l
  induction l with
  | nil =>
    intro scope v h
    simp only [lookupSteps, Option.some.injEq] at h
    exact Or.inl ⟨rfl, h.symm⟩
  | cons s rest ih =>
    intro scope v h
    right
    simp only [lookupSteps] at h
    cases hs : applyStep scope s with
    | none =>
      simp only [hs] at h
      exact Option.noConfusion h
    | some u =>
      simp only [hs] at h
      cases hu : u.isCallable with
      | true => simp [hu] at h
      | false =>
        simp only [hu, Bool.false_eq_true, if_false] at h
        rcases ih u v h with ⟨_, hv⟩ | hcall
        · rw [hv]; exact hu
        · exact hcall

/-! ## Claims -/

/-- C8: for every value and every maximum length, the string produced by
`format_reference` has length at most `max_string_length` plus the
length of the `' ...'` ellipsis marker, and the truncation step is
idempotent: applying it to an already-truncated output returns it
unchanged.  (Proved for every `maxLen`, which covers the claimed
positive ones.) -/
theorem truncation_bound_and_idempotence (ref : Value) (maxLen : Nat)
    (s : PyStr) (maxLen2 : Nat) :
    (format_reference ref maxLen).length ≤ maxLen + (str " ...").length ∧
    truncate (truncate s maxLen2) maxLen2 = truncate s maxLen2 :=
  ⟨format_reference_length_le ref maxLen, truncate_idem s maxLen2⟩

/-- C9: for a value whose display conversion raises (`reprRaw v = none`),
the `repr` wrapper substitutes the fixed placeholder string instead of
propagating, so `format_reference` still returns a string built from the
placeholder for every such input. -/
theorem render_failure_placeholder (v : Value) (maxLen : Nat)
    (h : reprRaw v = none) :
    reprSafe v = str "String Representation not found" ∧
    format_reference v maxLen =
      truncate
        (if (formatAdditionals v).isEmpty then str "String Representation not found"
         else List.intercalate (str ", ")
           (formatAdditionals v ++ [str "String Representation not found"])) maxLen := by
  have h1 : reprSafe v = str "String Representation not found" := by
    unfold reprSafe
    rw [h]
  exact ⟨h1, by unfold format_reference; rw [h1]⟩

/-- C9 witness: a value whose `repr` raises, at `max_string_length`
10. -/
theorem render_failure_placeholder_witness :
    reprSafe (Value.obj none []) = str "String Representation not found" ∧
    format_reference (Value.obj none []) 10 =
      truncate
        (if (formatAdditionals (Value.obj none [])).isEmpty then
          str "String Representation not found"
         else List.intercalate (str ", ")
           (formatAdditionals (Value.obj none []) ++
             [str "String Representation not found"])) 10 :=
  render_failure_placeholder (Value.obj none []) 10 rfl

/-- C5: the resolver short-circuits to the `Unresolved` sentinel, without
raising, whenever the first identifier is absent from the frame's local
scope, and whenever any subsequent attribute or subscript step fails on
the value reached so far.  (The embedded resolver is a total function:
every exception path of the source is caught and mapped to the
sentinel.) -/
theorem resolver_short_circuit (locs : List (String × Value)) (first : Step)
    (rest : List Step) (scope : Value) (s : Step) (rest2 : List Step)
    (h1 : lookupAssoc locs first.name = none)
    (h2 : applyStep scope s = none) :
    string_variable_lookup locs (first :: rest) = none ∧
    lookupSteps scope (s :: rest2) = none := by
  constructor
  · simp only [string_variable_lookup]
    rw [h1]
  · simp only [lookupSteps]
    rw [h2]

/-- C5 witness: an empty scope misses identifier `a`; an attribute-free
object fails the attribute step `b`. -/
theorem resolver_short_circuit_witness :
    string_variable_lookup ([] : List (String × Value)) [Step.dot "a"] = none ∧
    lookupSteps (Value.obj (some (str "<A object>")) []) [Step.dot "b"] = none :=
  resolver_short_circuit [] (Step.dot "a") [] (Value.obj (some (str "<A object>")) [])
    (Step.dot "b") [] rfl rfl

/-- C6 counterexample: the callable test of `string_variable_lookup` is
never applied to the value of the first identifier.  Looking up the
single-identifier expression `f` in a scope where `f` is a function
returns that function value itself, not the `Unresolved` sentinel — the
claim requires `Unresolved` here. -/
theorem resolver_returns_callable_first_identifier :
    string_variable_lookup [("f", Value.callable (some (str "<function f>")) [])]
      [Step.dot "f"] = some (Value.callable (some (str "<function f>")) []) ∧
    Value.isCallable (Value.callable (some (str "<function f>")) []) = true :=
  ⟨rfl, rfl⟩

/-- C6 amended: the callable exclusion holds at every resolution step
after the first identifier — a step that reaches a function, method,
module or builtin callable yields the sentinel immediately, and any
resolved value of an expression with at least one step beyond the first
identifier is never a callable; the value of the first identifier itself
is exempt from the check. -/
theorem resolver_callable_exclusion_after_first
    (scope : Value) (s : Step) (rest : List Step) (v : Value)
    (locs : List (String × Value)) (first : Step) (steps : List Step) (w : Value)
    (h1 : applyStep scope s = some v) (h2 : v.isCallable = true)
    (h3 : string_variable_lookup locs (first :: steps) = some w)
    (h4 : steps ≠ []) :
    lookupSteps scope (s :: rest) = none ∧ w.isCallable = false := by
  constructor
  · simp [lookupSteps, h1, h2]
  · simp only [string_variable_lookup] at h3
    cases hl : lookupAssoc locs first.name with
    | none =>
      simp only [hl] at h3
      exact Option.noConfusion h3
    | some sc =>
      simp only [hl] at h3
      rcases lookupSteps_ok steps sc w h3 with ⟨hnil, _⟩ | hcall
      · exact absurd hnil h4
      · exact hcall

/-- C6 amended witness: an attribute step reaching a bound method is
discarded; a two-step expression resolving successfully yields a
non-callable value. -/
theorem resolver_callable_exclusion_after_first_witness :
    lookupSteps (Value.obj (some (str "<A object>"))
        [("g", Value.callable (some (str "<bound method g>")) [])])
      [Step.dot "g"] = none ∧
    Value.isCallable (Value.obj (some (str "5")) []) = false :=
  resolver_callable_exclusion_after_first
    (Value.obj (some (str "<A object>"))
      [("g", Value.callable (some (str "<bound method g>")) [])])
    (Step.dot "g") [] (Value.callable (some (str "<bound method g>")) [])
    [("a", Value.obj (some (str "<A object>")) [("b", Value.obj (some (str "5")) [])])]
    (Step.dot "a") [Step.dot "b"] (Value.obj (some (str "5")) [])
    rfl rfl rfl (by simp)

/-- C2 counterexample: with both sinks configured, SMTP succeeding and
FTP failing, `exception_handler` removes the saved report
(`great_success` is an OR over sinks), although the FTP sink's status
for the record is still `NotSent` — the claim requires the record to be
retained. -/
theorem eviction_any_sink_deletes :
    handler_deletes_report (some true) (some false) = true ∧
    every_enabled_sink_sent (some true) (some false) = false :=
  ⟨rfl, by decide⟩

/-- C2 amended: a stored record is deleted if and only if at least one
configured sink's submission succeeded — by the handler (which deletes
the fresh report when `great_success` holds) and by the watcher (which
deletes every offline report when any submission method succeeded); a
record for which every configured sink failed is retained, but so is a
record as soon as one sink succeeds, regardless of other enabled sinks
still at `NotSent`. -/
theorem eviction_deletes_iff_any_sink_sent (smtpResult ftpResult : Option Bool) :
    (handler_deletes_report smtpResult ftpResult = true ↔
      smtpResult = some true ∨ ftpResult = some true) ∧
    (watcher_deletes_all smtpResult ftpResult = true ↔
      smtpResult = some true ∨ ftpResult = some true) := by
  revert smtpResult ftpResult
  decide

/-- C10: when `'self'` is among the frame locals, `get_local_references`
places `('self', repr(self))` first, using the raw (safe) display
conversion — never truncated to `max_string_length` and never carrying a
length annotation — while every other local variable is rendered
through `format_reference` and is therefore bounded by
`max_string_length` plus the ellipsis marker. -/
theorem self_bypasses_rendering_limits
    (locs : List (String × Value)) (maxLen : Nat) (v : Value) (k : String) (w : PyStr)
    (h1 : lookupAssoc locs "self" = some v)
    (h2 : (k, w) ∈ (get_local_references locs maxLen).tail) :
    (get_local_references locs maxLen).head? = some ("self", reprSafe v) ∧
    (get_local_references locs maxLen).tail =
      (locs.filter (fun kv => kv.1 != "self")).map
        (fun kv => (kv.1, format_reference kv.2 maxLen)) ∧
    w.length ≤ maxLen + (str " ...").length := by
  have hform : get_local_references locs maxLen =
      ("self", reprSafe v) ::
        (locs.filter (fun kv => kv.1 != "self")).map
          (fun kv => (kv.1, format_reference kv.2 maxLen)) := by
    simp only [get_local_references, h1]
    rfl
  refine ⟨by rw [hform]; rfl, by rw [hform]; rfl, ?_⟩
  rw [hform] at h2
  simp only [List.tail_cons, List.mem_map] at h2
  obtain ⟨kv, _, hkv⟩ := h2
  have hw : w = format_reference kv.2 maxLen := by
    have := congrArg Prod.snd hkv
    simpa using this.symm
  rw [hw]
  exact format_reference_length_le kv.2 maxLen

/-- C10 witness: a scope with a `self` of long `repr` and a list-valued
local `x`, rendered at `max_string_length = 0`. -/
theorem self_bypasses_rendering_limits_witness :
    (get_local_references
        [("self", Value.obj (some (str "<A object at 0x7f>")) []),
         ("x", Value.seq (some (str "[1]")) 1)] 0).head? =
      some ("self", reprSafe (Value.obj (some (str "<A object at 0x7f>")) [])) ∧
    (get_local_references
        [("self", Value.obj (some (str "<A object at 0x7f>")) []),
         ("x", Value.seq (some (str "[1]")) 1)] 0).tail =
      ([("self", Value.obj (some (str "<A object at 0x7f>")) []),
        ("x", Value.seq (some (str "[1]")) 1)].filter (fun kv => kv.1 != "self")).map
        (fun kv => (kv.1, format_reference kv.2 0)) ∧
    (str " ...").length ≤ 0 + (str " ...").length :=
  self_bypasses_rendering_limits
    [("self", Value.obj (some (str "<A object at 0x7f>")) []),
     ("x", Value.seq (some (str "[1]")) 1)] 0
    (Value.obj (some (str "<A object at 0x7f>")) []) "x" (str " ...")
    rfl (by decide)

/-- C3 counterexample: a crash whose traceback frame's source file is
unavailable makes `analyze_traceback` raise `IOError` inside
`exception_handler`; nothing in the handler catches it, so the handler
itself raises and `sys.__excepthook__` is never invoked — the claim
requires the handler to complete and always re-deliver the crash. -/
theorem handler_propagates_capture_failure :
    exception_handler true (some true) (some true) true (some "IOError")
      [unreadableFrame] = .error () := rfl

/-- C3 amended: when diagnostic capture (`analyze_traceback`) and report
storage (`_save_report`) complete without raising, the handler always
invokes the default exception hook with the original crash (whatever the
sink outcomes); but an exception raised during capture propagates out of
the handler and the default hook is not invoked. -/
theorem handler_invokes_default_hook_amended
    (smtpResult ftpResult : Option Bool) (etype : String) (frames : List Frame)
    (r : List FrameReport) (smtp2 ftp2 : Option Bool) (save2 : Bool) (etype2 : String)
    (frames2 : List Frame)
    (h1 : analyze_traceback frames none none = .ok r)
    (h2 : analyze_traceback frames2 none none = .error ()) :
    exception_handler true smtpResult ftpResult true (some etype) frames =
      .ok (true, handler_deletes_report smtpResult ftpResult) ∧
    exception_handler true smtp2 ftp2 save2 (some etype2) frames2 = .error () := by
  constructor
  · simp [exception_handler, h1]
  · simp [exception_handler, h2]

/-- C3 amended witness: a readable one-frame crash reaches the default
hook; a crash whose frame source is unreadable propagates. -/
theorem handler_invokes_default_hook_applied :
    exception_handler true none none true (some "ZeroDivisionError") [goodFrame] =
      .ok (true, handler_deletes_report none none) ∧
    exception_handler true none none false (some "IOError") [unreadableFrame] =
      .error () :=
  handler_invokes_default_hook_amended none none "ZeroDivisionError" [goodFrame]
    [mkFrameReport goodFrame "def f():\n    x = 1 / 0\n" 1 true]
    none none false "IOError" [unreadableFrame] rfl rfl

/-- C7: `analyze_traceback` calls `inspect.getsourcelines` outside any
`try` block, so one frame whose source file is unavailable aborts the
whole analysis with `IOError` — no frame report is produced for any
frame, not even the readable first one — whereas a fully readable stack
produces one report per frame.  This contradicts the claimed per-frame
failure isolation (degrade `Source Code` to `''` and continue), which
the source's own `"Source Code": ''` default shows to be the intent. -/
theorem analyze_traceback_aborts_on_unreadable_source :
    analyze_traceback [goodFrame, unreadableFrame] (some 2) none = .error () ∧
    analyze_traceback [goodFrame] (some 2) none =
      .ok [mkFrameReport goodFrame "def f():\n    x = 1 / 0\n" 1 true] :=
  ⟨rfl, rfl⟩

/-! ## Inspection depth (C4) -/

theorem mkFrameReport_localVariables_isSome (f : Frame) (srcText : String)
    (funcLineno : Nat) (enrich : Bool) :
    (mkFrameReport f srcText funcLineno enrich).localVariables.isSome = enrich := by
  cases enrich <;> simp [mkFrameReport]

theorem mkFrameReport_objectVariables_isSome (f : Frame) (srcText : String)
    (funcLineno : Nat) (enrich : Bool) :
    (mkFrameReport f srcText funcLineno enrich).objectVariables.isSome = enrich := by
  cases enrich <;> simp [mkFrameReport]

theorem count_range_filter (k n : Nat) : ∀ (m s : Nat),
    ((List.range' s m).filter (fun j => decide (n - j ≤ k))).length =
      m - ((n - k) - s) := by
  intro m
  induction m with
  | zero => intro s; simp
  | succ m ih =>
    intro s
    rw [List.range'_succ]
    by_cases hc : n - s ≤ k
    · rw [List.filter_cons_of_pos (by simpa using hc), List.length_cons, ih]
      omega
    · rw [List.filter_cons_of_neg (by simpa using hc), ih]
      omega

theorem analyzeGo_ok_spec (k n : Nat) :
    ∀ (frames : List Frame) (ii : Nat) (reports : List FrameReport),
      analyzeGo (some k) n ii frames = .ok reports →
      reports.length = frames.length ∧
      (∀ j (hj : j < reports.length),
        (reports.get ⟨j, hj⟩).localVariables.isSome = decide (n - (ii + j) ≤ k) ∧
        (reports.get ⟨j, hj⟩).objectVariables.isSome = decide (n - (ii + j) ≤ k)) ∧
      (reports.filter (fun rep => rep.localVariables.isSome)).length =
        ((List.range' ii frames.length).filter (fun j => decide (n - j ≤ k))).length := by
  intro frames
  induction frames with
  | nil =>
    intro ii reports h
    simp only [analyzeGo] at h
    have hrep : reports = [] := by injection h with h2; exact h2.symm
    subst hrep
    refine ⟨rfl, ?_, by simp⟩
    intro j hj
    exact absurd hj (by simp)
  | cons f rest ih =>
    intro ii reports h
    simp only [analyzeGo] at h
    cases hs : f.source with
    | none =>
      simp only [hs] at h
      exact Except.noConfusion h
    | some p =>
      obtain ⟨srcText, funcLineno⟩ := p
      simp only [hs] at h
      cases hrec : analyzeGo (some k) n (ii + 1) rest with
      | error e =>
        simp only [hrec] at h
        exact Except.noConfusion h
      | ok tl =>
        simp only [hrec] at h
        have hrep : reports =
            mkFrameReport f srcText funcLineno (decide (n - ii ≤ k)) :: tl := by
          injection h with h2
          exact h2.symm
        subst hrep
        obtain ⟨ihlen, ihidx, ihcount⟩ := ih (ii + 1) tl hrec
        refine ⟨by simp [ihlen], ?_, ?_⟩
        · intro j hj
          cases j with
          | zero =>
            simp only [List.get, Nat.add_zero]
            exact ⟨mkFrameReport_localVariables_isSome f srcText funcLineno _,
              mkFrameReport_objectVariables_isSome f srcText funcLineno _⟩
          | succ j =>
            have hj2 : j < tl.length := by
              simpa using Nat.lt_of_succ_lt_succ (by simpa using hj)
            have hij := ihidx j hj2
            have harith : ii + 1 + j = ii + (j + 1) := by omega
            rw [harith] at hij
            simpa using hij
        · rw [List.length_cons, List.range'_succ]
          have hd := mkFrameReport_localVariables_isSome f srcText funcLineno
            (decide (n - ii ≤ k))
          cases hb : decide (n - ii ≤ k) with
          | false =>
            rw [hb] at hd
            rw [List.filter_cons_of_neg (by simpa using hd),
              List.filter_cons_of_neg (by simpa using hb)]
            exact ihcount
          | true =>
            rw [hb] at hd
            rw [List.filter_cons_of_pos (by simpa using hd),
              List.filter_cons_of_pos (by simpa using hb),
              List.length_cons, List.length_cons, ihcount]

/-- C4: for a stack of `n` frames analysed with `inspection_level = k`,
a frame report at index `i` carries the local-variable and
object-reference enrichment exactly when `n - i ≤ k`, and exactly the
innermost `min k n` frame reports carry it; all other reports carry
none. -/
theorem inspection_depth_boundary (frames : List Frame) (k : Nat)
    (reports : List FrameReport) (i : Nat)
    (h : analyze_traceback frames (some k) none = .ok reports)
    (hi : i < reports.length) :
    reports.length = frames.length ∧
    (((reports.get ⟨i, hi⟩).localVariables.isSome = true ∧
      (reports.get ⟨i, hi⟩).objectVariables.isSome = true) ↔
      frames.length - i ≤ k) ∧
    (reports.filter (fun rep => rep.localVariables.isSome)).length =
      min k frames.length := by
  have h0 : analyzeGo (some k) frames.length 0 frames = .ok reports := by
    simpa [analyze_traceback] using h
  obtain ⟨hlen, hidx, hcount⟩ := analyzeGo_ok_spec k frames.length frames 0 reports h0
  refine ⟨hlen, ?_, ?_⟩
  · have hij := hidx i hi
    rw [Nat.zero_add] at hij
    constructor
    · intro hio
      have hloc := hij.1
      rw [hio.1] at hloc
      exact of_decide_eq_true hloc.symm
    · intro hc
      exact ⟨by rw [hij.1]; exact decide_eq_true hc,
        by rw [hij.2]; exact decide_eq_true hc⟩
  · rw [hcount, count_range_filter k frames.length frames.length 0]
    omega

/-- The report the analyzer produces for `goodFrame` outside the
inspection level. -/
def reportNotEnriched : FrameReport :=
  mkFrameReport goodFrame "def f():\n    x = 1 / 0\n" 1 false

/-- The report the analyzer produces for `goodFrame` within the
inspection level. -/
def reportEnriched : FrameReport :=
  mkFrameReport goodFrame "def f():\n    x = 1 / 0\n" 1 true

/-- C4 witness: two readable frames at `inspection_level = 1` — only the
innermost report is enriched. -/
theorem inspection_depth_boundary_witness :
    [reportNotEnriched, reportEnriched].length = [goodFrame, goodFrame].length ∧
    ((([reportNotEnriched, reportEnriched].get ⟨0, by decide⟩).localVariables.isSome = true ∧
      ([reportNotEnriched, reportEnriched].get ⟨0, by decide⟩).objectVariables.isSome = true) ↔
      [goodFrame, goodFrame].length - 0 ≤ 1) ∧
    ([reportNotEnriched, reportEnriched].filter
        (fun rep => rep.localVariables.isSome)).length =
      min 1 [goodFrame, goodFrame].length :=
  inspection_depth_boundary [goodFrame, goodFrame] 1
    [reportNotEnriched, reportEnriched] 0 rfl (by decide)

/-! ## Ring buffer (C1) -/

theorem length_slotsFrom (l : List String) : ∀ k, (slotsFrom k l).length = l.length := by
  induction l with
  | nil => intro k; rfl
  | cons c t ih => intro k; simp [slotsFrom, ih]

theorem ordinals_slotsFrom (l : List String) :
    ∀ k, storeOrdinals (slotsFrom k l) = List.range' k l.length := by
  induction l with
  | nil => intro k; rfl
  | cons c t ih =>
    intro k
    simp only [slotsFrom, storeOrdinals, List.map_cons, List.length_cons,
      List.range'_succ]
    exact congrArg (List.cons k) (ih (k + 1))

theorem slotsFrom_append (a : List String) : ∀ (k : Nat) (b : List String),
    slotsFrom k (a ++ b) = slotsFrom k a ++ slotsFrom (k + a.length) b := by
  induction a with
  | nil => intro k b; simp [slotsFrom]
  | cons c t ih =>
    intro k b
    simp only [List.cons_append, slotsFrom, List.length_cons, List.append_eq]
    rw [ih (k + 1) b]
    have h : k + 1 + t.length = k + (t.length + 1) := by omega
    rw [h]

theorem storeGet_append (s2 : Store) : ∀ (s1 : Store) (n : Nat),
    storeGet (s1 ++ s2) n =
      match storeGet s1 n with
      | some c => some c
      | none => storeGet s2 n := by
  intro s1
  induction s1 with
  | nil => intro n; rfl
  | cons p t ih =>
    intro n
    obtain ⟨m, c⟩ := p
    by_cases h : n = m
    · simp [storeGet, h]
    · simp [storeGet, h, ih]

theorem storeGet_slotsFrom (l : List String) : ∀ (k n : Nat),
    storeGet (slotsFrom k l) n =
      if k ≤ n ∧ n < k + l.length then l[n - k]? else none := by
  induction l with
  | nil =>
    intro k n
    simp only [slotsFrom, storeGet, List.length_nil]
    rw [if_neg (by omega)]
  | cons c t ih =>
    intro k n
    simp only [slotsFrom, storeGet, List.length_cons]
    by_cases h : n = k
    · subst h
      rw [if_pos rfl, if_pos (by omega), Nat.sub_self]
      simp
    · rw [if_neg h, ih (k + 1) n]
      by_cases h2 : k + 1 ≤ n ∧ n < k + 1 + t.length
      · rw [if_pos h2, if_pos (by omega)]
        have h3 : n - k = (n - (k + 1)) + 1 := by omega
        rw [h3]
        simp
      · rw [if_neg h2, if_neg (by omega)]

theorem storeWrite_skip_prefix (L : List String) : ∀ (k : Nat) (rest : Store) (n : Nat)
    (v : String), k + L.length ≤ n →
    storeWrite (slotsFrom k L ++ rest) n v = slotsFrom k L ++ storeWrite rest n v := by
  induction L with
  | nil => intro k rest n v h; rfl
  | cons c t ih =>
    intro k rest n v h
    rw [List.length_cons] at h
    simp only [slotsFrom, List.cons_append, storeWrite, List.append_eq]
    rw [if_neg (by omega), if_neg (by omega), ih (k + 1) rest n v (by omega)]

theorem storeRemove_skip_prefix (L : List String) : ∀ (k : Nat) (rest : Store) (n : Nat),
    k + L.length ≤ n →
    storeRemove (slotsFrom k L ++ rest) n = slotsFrom k L ++ storeRemove rest n := by
  induction L with
  | nil => intro k rest n h; rfl
  | cons c t ih =>
    intro k rest n h
    rw [List.length_cons] at h
    simp only [slotsFrom, List.cons_append, storeRemove, List.append_eq]
    rw [if_neg (by omega), ih (k + 1) rest n (by omega)]

theorem storeRemove_below (L : List String) : ∀ (k n : Nat), n < k →
    storeRemove (slotsFrom k L) n = slotsFrom k L := by
  induction L with
  | nil => intro k n _; rfl
  | cons c t ih =>
    intro k n h
    simp only [slotsFrom, storeRemove]
    rw [if_neg (by omega), ih (k + 1) n (by omega)]

theorem storeWrite_below (L : List String) (k n : Nat) (v : String) (h : n < k) :
    storeWrite (slotsFrom k L) n v = (n, v) :: slotsFrom k L := by
  cases L with
  | nil => rfl
  | cons c t =>
    simp only [slotsFrom, storeWrite]
    rw [if_pos h]

theorem shift_foldr_spec (l : List String) :
    ∀ (m j : Nat), 1 ≤ j → j + m = l.length + 1 →
      List.foldr (fun x y => shiftStep y x) (ofList l) (List.range' j m) =
        slotsFrom 1 (l.take j) ++ slotsFrom (j + 1) (l.drop (j - 1)) := by
  intro m
  induction m with
  | zero =>
    intro j h1 h2
    have hj : j = l.length + 1 := by omega
    subst hj
    rw [List.range'_zero, List.foldr_nil,
      List.take_of_length_le (by omega), List.drop_eq_nil_of_le (by omega)]
    simp [ofList, slotsFrom]
  | succ m ih =>
    intro j h1 h2
    rw [List.range'_succ, List.foldr_cons, ih (j + 1) (by omega) (by omega)]
    have hjN : j ≤ l.length := by omega
    have hj1 : j - 1 < l.length := by omega
    have hsub : j + 1 - 1 = j := by omega
    rw [hsub]
    have hdrop : l.drop (j - 1) = l.get ⟨j - 1, hj1⟩ :: l.drop j := by
      have := List.drop_eq_getElem_cons hj1
      rw [show j - 1 + 1 = j from by omega] at this
      simpa using this
    by_cases hcase : j = l.length
    · -- final fold step: the topmost report is copied to a fresh ordinal
      subst hcase
      rw [List.take_of_length_le (by omega), List.drop_eq_nil_of_le (by omega)]
      unfold shiftStep
      have hget : storeGet (slotsFrom 1 l ++ slotsFrom (l.length + 1 + 1) []) l.length =
          some (l.get ⟨l.length - 1, hj1⟩) := by
        rw [storeGet_append, storeGet_slotsFrom]
        rw [if_pos (by constructor <;> omega)]
        have : l[l.length - 1]? = some (l.get ⟨l.length - 1, hj1⟩) := by
          rw [List.getElem?_eq_getElem hj1]
          rfl
        rw [this]
      rw [hget]
      simp only [Option.getD_some]
      have hnil : slotsFrom (l.length + 1 + 1) ([] : List String) = [] := rfl
      rw [hnil, List.append_nil]
      have := storeWrite_skip_prefix l 1 [] (l.length + 1)
        (l.get ⟨l.length - 1, hj1⟩) (by omega)
      rw [List.append_nil] at this
      rw [this, hdrop, List.drop_eq_nil_of_le (by omega), List.take_length]
      rfl
    · -- interior fold step: report j is copied onto ordinal j + 1
      have hjlt : j < l.length := by omega
      have htake : l.take (j + 1) = l.take j ++ [l.get ⟨j, hjlt⟩] := by
        rw [List.take_succ, List.getElem?_eq_getElem hjlt]
        rfl
      rw [htake, slotsFrom_append, List.length_take, Nat.min_eq_left (by omega)]
      unfold shiftStep
      have hget : storeGet
          ((slotsFrom 1 (l.take j) ++ slotsFrom (1 + j) [l.get ⟨j, hjlt⟩]) ++
            slotsFrom (j + 1 + 1) (l.drop j)) j =
          some (l.get ⟨j - 1, hj1⟩) := by
        rw [List.append_assoc, storeGet_append, storeGet_slotsFrom]
        rw [if_pos (by rw [List.length_take]; constructor <;> omega)]
        have : (l.take j)[j - 1]? = some (l.get ⟨j - 1, hj1⟩) := by
          rw [List.getElem?_take, if_pos (by omega), List.getElem?_eq_getElem hj1]
          rfl
        rw [this]
      rw [hget]
      simp only [Option.getD_some]
      rw [List.append_assoc]
      have hskip := storeWrite_skip_prefix (l.take j) 1
        (slotsFrom (1 + j) [l.get ⟨j, hjlt⟩] ++ slotsFrom (j + 1 + 1) (l.drop j))
        (j + 1) (l.get ⟨j - 1, hj1⟩) (by rw [List.length_take]; omega)
      rw [hskip, hdrop]
      have hmid : storeWrite
          (slotsFrom (1 + j) [l.get ⟨j, hjlt⟩] ++ slotsFrom (j + 1 + 1) (l.drop j))
          (j + 1) (l.get ⟨j - 1, hj1⟩) =
          (j + 1, l.get ⟨j - 1, hj1⟩) :: slotsFrom (j + 1 + 1) (l.drop j) := by
        have h1j : 1 + j = j + 1 := by omega
        rw [h1j]
        simp only [slotsFrom, List.cons_append, storeWrite]
        simp
      rw [hmid]
      rfl

theorem save_report_ofList (limit : Nat) (b : String) (l : List String)
    (hlim : 1 ≤ limit) (hlen : l.length ≤ limit) :
    save_report limit b (ofList l) = ofList (b :: l.take (limit - 1)) := by
  cases l with
  | nil =>
    simp [save_report, ofList, slotsFrom, storeOrdinals, storeWrite]
  | cons c t =>
    unfold save_report
    have hord : storeOrdinals (ofList (c :: t)) = List.range' 1 (t.length + 1) := by
      simpa using ordinals_slotsFrom (c :: t) 1
    rw [hord, List.range'_succ]
    simp only []
    have hfold : (1 :: List.range' 2 t.length).reverse.foldl shiftStep (ofList (c :: t)) =
        slotsFrom 1 ((c :: t).take 1) ++ slotsFrom 2 ((c :: t).drop 0) := by
      rw [List.foldl_reverse]
      have := shift_foldr_spec (c :: t) (t.length + 1) 1 (by omega)
        (by simp only [List.length_cons]; omega)
      rw [List.range'_succ] at this
      simpa using this
    rw [hfold]
    simp only [List.take_succ, List.take_zero, List.drop_zero]
    have hshift : slotsFrom 1 (([] : List String) ++ (c :: t)[0]?.toList) ++
        slotsFrom 2 (c :: t) = (1, c) :: slotsFrom 2 (c :: t) := by
      simp [slotsFrom]
    rw [hshift]
    have hremove1 : storeRemove ((1, c) :: slotsFrom 2 (c :: t)) 1 =
        slotsFrom 2 (c :: t) := by
      simp only [storeRemove, if_pos rfl]
      exact storeRemove_below (c :: t) 2 1 (by omega)
    rw [hremove1]
    rw [List.length_cons] at hlen
    simp only [List.length_cons, List.length_range']
    by_cases hfull : limit ≤ t.length + 1
    · -- the buffer is full: the shifted-out oldest report is deleted
      rw [if_pos hfull]
      have hNlim : t.length + 1 = limit := by omega
      have hlast : (c :: t) ≠ [] := by simp
      have hdecomp : (c :: t) = (c :: t).dropLast ++ [(c :: t).getLast hlast] :=
        (List.dropLast_append_getLast hlast).symm
      have hdl : ((c :: t).dropLast).length = t.length := by simp
      have hrem : storeRemove (slotsFrom 2 (c :: t)) (limit + 1) =
          slotsFrom 2 ((c :: t).dropLast) := by
        conv_lhs => rw [hdecomp]
        rw [slotsFrom_append, hdl,
          storeRemove_skip_prefix ((c :: t).dropLast) 2 _ (limit + 1) (by omega)]
        simp only [slotsFrom, storeRemove]
        rw [if_pos (by omega)]
        simp
      rw [hrem, storeWrite_below _ 2 1 b (by omega)]
      have htake : (c :: t).dropLast = (c :: t).take (limit - 1) := by
        rw [List.dropLast_eq_take]
        have hlc : (c :: t).length - 1 = limit - 1 := by
          simp only [List.length_cons]
          omega
        rw [hlc]
      rw [htake]
      rfl
    · -- the buffer has room: every report survives the shift
      rw [if_neg hfull]
      rw [storeWrite_below _ 2 1 b (by omega)]
      rw [List.take_of_length_le (by simp only [List.length_cons]; omega)]
      rfl

theorem saveAll_spec (limit : Nat) (hlim : 1 ≤ limit) (bodies : List String) :
    ∃ l : List String, saveAll limit bodies = ofList l ∧ l.length ≤ limit ∧
      l.head? = bodies.getLast? := by
  induction bodies using List.reverseRecOn with
  | nil => exact ⟨[], rfl, by simp, rfl⟩
  | append_singleton bs b ih =>
    obtain ⟨l, hEq, hLen, _⟩ := ih
    refine ⟨b :: l.take (limit - 1), ?_, ?_, ?_⟩
    · have hstep : saveAll limit (bs ++ [b]) = save_report limit b (saveAll limit bs) := by
        unfold saveAll
        rw [List.foldl_append]
        rfl
      rw [hstep, hEq, save_report_ofList limit b l hlim hLen]
    · simp only [List.length_cons, List.length_take]
      omega
    · simp

/-- C1: starting from an empty report directory, after any sequence of
`_save_report` calls the store holds at most `offline_report_limit` slot
files, the slot ordinals are the contiguous range `1..N`, and ordinal 1
(`crashreport01`) holds the most recently appended report body.  The
hypothesis `limit ≤ 99` restricts the statement to the regime in which
the numeric-ordinal embedding is faithful to the `"crashreport%02d"`
filenames (every persisted ordinal stays two-digit, so
`int(rpath[-2:])`, lexicographic `sorted(glob)` and the line-440 glob
all agree with the model); it comfortably covers the default
`offline_report_limit = 10`.  Beyond it the source itself corrupts the
buffer — a three-digit slot name is misparsed and mis-sorted — so no
claim is made there. -/
theorem ring_buffer_capacity_ordering (limit : Nat) (bodies : List String) (b : String)
    (hlim : 1 ≤ limit) (henc : limit ≤ 99) (hb : bodies.getLast? = some b) :
    (saveAll limit bodies).length ≤ limit ∧
    storeOrdinals (saveAll limit bodies) =
      List.range' 1 (saveAll limit bodies).length ∧
    storeGet (saveAll limit bodies) 1 = some b := by
  obtain ⟨l, hEq, hLen, hHead⟩ := saveAll_spec limit hlim bodies
  rw [hEq]
  have hl : (ofList l).length = l.length := length_slotsFrom l 1
  refine ⟨by rw [hl]; exact hLen, ?_, ?_⟩
  · rw [hl]
    exact ordinals_slotsFrom l 1
  · rw [hb] at hHead
    cases l with
    | nil => exact Option.noConfusion hHead
    | cons x xs =>
      have hx : x = b := by
        injection hHead
      rw [hx]
      rfl

/-- C1 witness: limit 2, three appends — the store ends at
`[(1, r3), (2, r2)]`. -/
theorem ring_buffer_capacity_ordering_instance :
    (saveAll 2 ["r1", "r2", "r3"]).length ≤ 2 ∧
    storeOrdinals (saveAll 2 ["r1", "r2", "r3"]) =
      List.range' 1 (saveAll 2 ["r1", "r2", "r3"]).length ∧
    storeGet (saveAll 2 ["r1", "r2", "r3"]) 1 = some "r3" :=
  ring_buffer_capacity_ordering 2 ["r1", "r2", "r3"] "r3" (by omega) (by omega) rfl

end CrashReporter
